import Mathlib

/-!
Verification of the ytclip core logic (src/main.rs) against its design
specification.

Embedding conventions:
* Rust `f64` values are embedded as exact rationals (`ℚ`).  All arithmetic
  the verified claims depend on (`* 60`, `* 3600`, `+`, `-`, `/ 2`, `min`,
  comparisons) is exact real arithmetic in the specification's own data
  model ("a non-negative real number of seconds"), so `ℚ` is the faithful
  shallow embedding of the intended semantics.  Decimal literals of the
  source (`0.01`, `2.0`, ...) are embedded as the corresponding rationals.
* Rust `Vec<String>` becomes `List String`; fallible functions return
  `Except`/`Option`.
* Rust string primitives used by the source (`str::split(':')`,
  `f64::from_str`, `{:.2}` formatting, `f64` `Display`, `str::replace`,
  `String::join`) are modelled explicitly below over `List Char`, so every
  definition is executable and decidable on concrete inputs.
-/

set_option allowUnsafeReducibility true

attribute [local semireducible] Rat.mul Rat.add Rat.sub Rat.inv Rat.ofScientific

instance {ε α : Type} [DecidableEq ε] [DecidableEq α] : DecidableEq (Except ε α) := fun x y =>
  match x, y with
  | .error a, .error b =>
    if h : a = b then isTrue (by rw [h]) else isFalse fun hc => h (by injection hc)
  | .error _, .ok _ => isFalse fun hc => Except.noConfusion hc
  | .ok _, .error _ => isFalse fun hc => Except.noConfusion hc
  | .ok a, .ok b =>
    if h : a = b then isTrue (by rw [h]) else isFalse fun hc => h (by injection hc)

/-- Character for a single decimal digit `n < 10`. -/
def natDigitChar (n : Nat) : Char := Char.ofNat (48 + n)

/-- Digit list of a natural number, most significant first.  `fuel` bounds
the recursion depth; `natToStr` always supplies enough fuel. -/
def natToStrAux : Nat → Nat → List Char
  | 0, _ => []
  | fuel + 1, n =>
    if n < 10 then [natDigitChar n]
    else natToStrAux fuel (n / 10) ++ [natDigitChar (n % 10)]

/-- Decimal rendering of a natural number (models Rust integer `Display`). -/
def natToStr (n : Nat) : String := String.mk (natToStrAux (n + 1) n)

/-- Nearest integer to `q`, ties to even: the rounding used by Rust's
fixed-precision float formatting. -/
def roundHalfEven (q : ℚ) : ℤ :=
  let f := ⌊q⌋
  let r := q - f
  if r < 1 / 2 then f
  else if 1 / 2 < r then f + 1
  else if f % 2 = 0 then f else f + 1

/-- Rational value denoted by formatting `q` with two decimals. -/
def fmt2val (q : ℚ) : ℚ := (roundHalfEven (q * 100) : ℚ) / 100

/-- Models Rust `format!("{:.2}", q)`: fixed two-decimal rendering. -/
def fmt2 (q : ℚ) : String :=
  let n := roundHalfEven (q * 100)
  let sign := if n < 0 then "-" else ""
  let m := n.natAbs
  sign ++ natToStr (m / 100) ++ "." ++
    (if m % 100 < 10 then "0" ++ natToStr (m % 100) else natToStr (m % 100))

/-- Exponent/remainder decomposition: `factorOutAux fuel p n = (k, m)` with
`n = p ^ k * m` and `p` not dividing `m`, provided `fuel` is large enough
(`factorOut` supplies `fuel = n`, always sufficient). -/
def factorOutAux : Nat → Nat → Nat → Nat × Nat
  | 0, _, n => (0, n)
  | fuel + 1, p, n =>
    if 2 ≤ p ∧ 0 < n ∧ n % p = 0 then
      let pr := factorOutAux fuel p (n / p)
      (pr.1 + 1, pr.2)
    else (0, n)

def factorOut (p n : Nat) : Nat × Nat := factorOutAux n p n

/-- Models Rust `f64` `Display` (`start_seconds.to_string()` etc.) on the
rational embedding: the shortest exact decimal form, so `90 ↦ "90"`,
`3/2 ↦ "1.5"`.  For a denominator that is not of the form `2^a * 5^b`
(impossible for a value of a binary float, hence unreachable from the
embedded program) it falls back to a fraction rendering. -/
def f64_to_string (q : ℚ) : String :=
  let sign := if q < 0 then "-" else ""
  let n := q.num.natAbs
  let d := q.den
  let a := (factorOut 2 d).1
  let r2 := (factorOut 2 d).2
  let b := (factorOut 5 r2).1
  let r := (factorOut 5 r2).2
  if r = 1 then
    let k := max a b
    let digits := n * 10 ^ k / d
    if k = 0 then sign ++ natToStr digits
    else
      let ip := digits / 10 ^ k
      let fp := digits % 10 ^ k
      let fs := natToStr fp
      let pad := String.mk (List.replicate (k - fs.length) '0')
      sign ++ natToStr ip ++ "." ++ pad ++ fs
  else sign ++ natToStr n ++ "/" ++ natToStr d

/-- Models Rust `str::split(c)` (here always `c = ':'` or `c = '.'`):
splitting never yields an empty list; the empty string yields `[[]]`. -/
def splitOnChar (sep : Char) : List Char → List (List Char)
  | [] => [[]]
  | c :: t =>
    let r := splitOnChar sep t
    if c = sep then [] :: r
    else
      match r with
      | h :: t2 => (c :: h) :: t2
      | [] => [[c]]

/-- Leading-sign decomposition used by the float grammar: returns the sign
as a rational unit and the remaining characters. -/
def parseSign : List Char → ℚ × List Char
  | '+' :: t => (1, t)
  | '-' :: t => (-1, t)
  | l => (1, l)

/-- Numeric value of a digit string (most significant first). -/
def digitsVal (l : List Char) : Nat :=
  l.foldl (fun a c => a * 10 + (c.toNat - 48)) 0

/-- Models the finite-literal fragment of Rust `f64::from_str`:
`Sign? (Digit+ | Digit+ . Digit* | Digit* . Digit+) ([eE] Sign? Digit+)?`.
The non-finite literals `inf`/`infinity`/`nan` denote IEEE values with no
rational counterpart; they are outside every claim considered here and are
rejected by this model. -/
def parseF64 (l : List Char) : Option ℚ :=
  let sp := parseSign l
  let sgn := sp.1
  let l1 := sp.2
  let mant := l1.takeWhile (fun c => ¬ (c = 'e' ∨ c = 'E'))
  let rest := l1.drop mant.length
  let expv : Option ℤ :=
    match rest with
    | [] => some 0
    | _ :: er =>
      let es := parseSign er
      if es.2 ≠ [] ∧ es.2.all Char.isDigit then
        some (es.1.num * (digitsVal es.2 : ℤ))
      else none
  match expv with
  | none => none
  | some e =>
    match splitOnChar '.' mant with
    | [ip] =>
      if ip ≠ [] ∧ ip.all Char.isDigit then
        some (sgn * (digitsVal ip : ℚ) * (10 : ℚ) ^ e)
      else none
    | [ip, fp] =>
      if (ip ++ fp) ≠ [] ∧ ip.all Char.isDigit ∧ fp.all Char.isDigit then
        some (sgn * ((digitsVal (ip ++ fp) : ℚ) / 10 ^ fp.length) * (10 : ℚ) ^ e)
      else none
    | _ => none

/-- Positional component named by a time-parse failure, mirroring the
source's `"Invalid hours/minutes/seconds format"` contexts. -/
inductive Component
  | hours
  | minutes
  | seconds
deriving DecidableEq, Repr

/-- Error taxonomy of the time parser (spec section 7). -/
inductive ParseError
  | invalidFormat
  | invalidComponent (c : Component)
deriving DecidableEq, Repr

/-- Embedding of `parse_time` (src/main.rs lines 32-63): split on `:` into
1, 2 or 3 fields and combine as seconds / MM:SS / HH:MM:SS. -/
def parse_time (time_str : String) : Except ParseError ℚ :=
  let parts := splitOnChar ':' time_str.data
  match parts with
  | [p0] =>
    match parseF64 p0 with
    | some v => .ok v
    | none => .error (.invalidComponent .seconds)
  | [p0, p1] =>
    match parseF64 p0 with
    | none => .error (.invalidComponent .minutes)
    | some minutes =>
      match parseF64 p1 with
      | none => .error (.invalidComponent .seconds)
      | some seconds => .ok (minutes * 60 + seconds)
  | [p0, p1, p2] =>
    match parseF64 p0 with
    | none => .error (.invalidComponent .hours)
    | some hours =>
      match parseF64 p1 with
      | none => .error (.invalidComponent .minutes)
      | some minutes =>
        match parseF64 p2 with
        | none => .error (.invalidComponent .seconds)
        | some seconds => .ok (hours * 3600 + minutes * 60 + seconds)
  | _ => .error .invalidFormat

/-- Regex character class `[a-zA-Z0-9_-]` of `extract_video_id`. -/
def idChar (c : Char) : Bool := c.isAlpha || c.isDigit || c = '_' || c = '-'

/-- First literal alternative of the video-id regex. -/
def patWatch : List Char := String.data "youtube.com/watch?v="

/-- Second literal alternative of the video-id regex. -/
def patShort : List Char := String.data "youtu.be/"

/-- Third literal alternative of the video-id regex. -/
def patEmbed : List Char := String.data "youtube.com/embed/"

/-- The three URL patterns recognised by `extract_video_id`. -/
def ytPatterns : List (List Char) := [patWatch, patShort, patEmbed]

/-- Match one regex alternative at the head of `l`: the literal `pat`
followed by (at least) 11 characters of the id class; the captured group is
exactly those 11 characters. -/
def matchAlt (pat l : List Char) : Option (List Char) :=
  if l.take pat.length = pat ∧ ((l.drop pat.length).take 11).length = 11 ∧
      ((l.drop pat.length).take 11).all idChar then
    some ((l.drop pat.length).take 11)
  else none

/-- Match the whole alternation at the head of `l`.  At any position at most
one of the three literals can match (they pairwise disagree within their
common length), so the alternation order cannot matter. -/
def tryMatchAt (l : List Char) : Option (List Char) :=
  match matchAlt patWatch l with
  | some r => some r
  | none =>
    match matchAlt patShort l with
    | some r => some r
    | none => matchAlt patEmbed l

/-- Leftmost-match scan of the regex engine: try each start position from
the left, return the first capture.  (On the empty remainder no alternative
can match — every pattern literal is nonempty — so the scan ends with
`none` there.) -/
def findFirstMatch : List Char → Option (List Char)
  | [] => none
  | c :: t =>
    match tryMatchAt (c :: t) with
    | some r => some r
    | none => findFirstMatch t

/-- Embedding of `extract_video_id` (src/main.rs lines 65-74): first match
of `(youtube\.com/watch\?v=|youtu\.be/|youtube\.com/embed/)([a-zA-Z0-9_-]{11})`. -/
def extract_video_id (url : String) : Option String :=
  (findFirstMatch url.data).map String.mk

/-- Embedding of Rust `Vec::join(",")` on the atempo chain. -/
def joinComma : List String → String
  | [] => ""
  | [a] => a
  | a :: b :: t => a ++ "," ++ joinComma (b :: t)

/-- Embedding of the `while tempo > 2.0` loop of `build_ffmpeg_command`
(src/main.rs lines 133-138): returns the list of fixed `"atempo=2.0"`
stages pushed by the loop together with the final value of `tempo`. -/
def atempo_chain_loop (tempo : ℚ) : List String × ℚ :=
  if h : 2 < tempo then
    ("atempo=2.0" :: (atempo_chain_loop (tempo / 2)).1, (atempo_chain_loop (tempo / 2)).2)
  else ([], tempo)
termination_by Nat.ceil tempo
decreasing_by
  all_goals
    have h0 : (0 : ℚ) ≤ tempo / 2 := by linarith
    have h1 : tempo / 2 + 1 ≤ tempo := by linarith
    calc Nat.ceil (tempo / 2) < Nat.ceil (tempo / 2) + 1 := Nat.lt_succ_self _
      _ = Nat.ceil (tempo / 2 + 1) := (Nat.ceil_add_one h0).symm
      _ ≤ Nat.ceil tempo := Nat.ceil_mono h1

/-- The fixed encoding directives of `build_ffmpeg_command`
(src/main.rs lines 151-160), without the trailing output path. -/
def fixed_encoding_args : List String :=
  ["-c:v", "libx264", "-c:a", "aac", "-pix_fmt", "yuv420p",
   "-movflags", "faststart", "-preset", "fast", "-crf", "23", "-y"]

/-- Embedding of `build_ffmpeg_command` (src/main.rs lines 107-163).  The
source pushes `output_file` as the last element of the same
`extend_from_slice` as the fixed encoding flags; it is split off here as a
final singleton, which produces the identical token list. -/
def build_ffmpeg_command (url : String) (start_seconds duration : ℚ)
    (output_file : String) (speed : ℚ) : List String :=
  let base := ["-ss", f64_to_string start_seconds, "-i", url,
               "-t", f64_to_string duration]
  let with_speed :=
    if 1 / 100 < |speed - 1| then
      let video_filter := "setpts=" ++ fmt2 (1 / speed) ++ "*PTS"
      let audio_filter := "atempo=" ++ fmt2 (min speed 2)
      if 2 < speed then
        let chain0 := (atempo_chain_loop speed).1
        let tempo := (atempo_chain_loop speed).2
        let chain := if 1 < tempo then chain0 ++ ["atempo=" ++ fmt2 tempo] else chain0
        base ++ ["-filter:v", video_filter, "-filter:a", joinComma chain]
      else
        base ++ ["-filter:v", video_filter, "-filter:a", audio_filter]
    else base
  with_speed ++ fixed_encoding_args ++ [output_file]

/-- Errors of the pure control skeleton of `download_clip`. -/
inductive ClipError
  | parse (e : ParseError)
  | nonPositiveDuration
  | videoIdExtraction
deriving DecidableEq, Repr

/-- Replace every `:` with `-` (Rust `str::replace(':', "-")`). -/
def colonToDash (s : String) : String :=
  String.mk (s.data.map fun c => if c = ':' then '-' else c)

/-- Derived output filename of `download_clip` (src/main.rs lines 197-210),
used when the user supplies no `--output` name. -/
def default_output_file (title start_time end_time : String) (speed : ℚ) : String :=
  if 1 / 100 < |speed - 1| then
    title ++ "_clip_" ++ colonToDash start_time ++ "-" ++ colonToDash end_time ++
      "_" ++ f64_to_string speed ++ "x.mp4"
  else
    title ++ "_clip_" ++ colonToDash start_time ++ "_" ++ colonToDash end_time ++ ".mp4"

/-- Pure control skeleton of `download_clip` (src/main.rs lines 165-256):
the parsing, validation, id-extraction and command-construction steps, in
source order.  The two collaborator subprocesses are injected as values, as
the specification directs (section 9): `title` stands for the already
fetched-and-sanitised video title (with its `"video"` fallback applied) and
`direct_url` for the locator returned by the resolver; printing and the
final transcoder invocation are I/O and lie outside the pure skeleton. -/
def download_clip_plan (url start_time end_time : String)
    (output_name : Option String) (speed : ℚ)
    (title direct_url : String) : Except ClipError (List String) :=
  match parse_time start_time with
  | .error e => .error (.parse e)
  | .ok start_seconds =>
    match parse_time end_time with
    | .error e => .error (.parse e)
    | .ok end_seconds =>
      if end_seconds ≤ start_seconds then .error .nonPositiveDuration
      else
        let duration := end_seconds - start_seconds
        match extract_video_id url with
        | none => .error .videoIdExtraction
        | some _ =>
          let output_file :=
            output_name.getD (default_output_file title start_time end_time speed)
          .ok (build_ffmpeg_command direct_url start_seconds duration output_file speed)

theorem atempo_chain_loop_gt (t : ℚ) (h : 2 < t) :
    atempo_chain_loop t =
      ("atempo=2.0" :: (atempo_chain_loop (t / 2)).1, (atempo_chain_loop (t / 2)).2) := by
  rw [atempo_chain_loop]
  simp [h]

theorem atempo_chain_loop_le (t : ℚ) (h : ¬ 2 < t) : atempo_chain_loop t = ([], t) := by
  rw [atempo_chain_loop]
  simp [h]

theorem build_near1 (url : String) (s d : ℚ) (o : String) (sp : ℚ)
    (h : ¬ 1 / 100 < |sp - 1|) :
    build_ffmpeg_command url s d o sp =
      ["-ss", f64_to_string s, "-i", url, "-t", f64_to_string d] ++
        fixed_encoding_args ++ [o] := by
  unfold build_ffmpeg_command
  dsimp only
  rw [if_neg h]

theorem build_mid (url : String) (s d : ℚ) (o : String) (sp : ℚ)
    (h1 : 1 / 100 < |sp - 1|) (h2 : ¬ 2 < sp) :
    build_ffmpeg_command url s d o sp =
      ["-ss", f64_to_string s, "-i", url, "-t", f64_to_string d] ++
        ["-filter:v", "setpts=" ++ fmt2 (1 / sp) ++ "*PTS",
         "-filter:a", "atempo=" ++ fmt2 (min sp 2)] ++
        fixed_encoding_args ++ [o] := by
  unfold build_ffmpeg_command
  dsimp only
  rw [if_pos h1, if_neg h2]

theorem splitOnChar_ne_nil (sep : Char) (l : List Char) : splitOnChar sep l ≠ [] := by
  cases l with
  | nil => simp [splitOnChar]
  | cons c t =>
    simp only [splitOnChar]
    split
    · simp
    · cases hr : splitOnChar sep t with
      | nil => simp
      | cons h t2 => simp

theorem build_hi (url : String) (s d : ℚ) (o : String) (sp : ℚ)
    (h2 : 2 < sp) (h4 : sp ≤ 4) :
    build_ffmpeg_command url s d o sp =
      ["-ss", f64_to_string s, "-i", url, "-t", f64_to_string d] ++
        ["-filter:v", "setpts=" ++ fmt2 (1 / sp) ++ "*PTS",
         "-filter:a", joinComma ["atempo=2.0", "atempo=" ++ fmt2 (sp / 2)]] ++
        fixed_encoding_args ++ [o] := by
  have h1 : 1 / 100 < |sp - 1| := by
    rw [abs_of_pos (by linarith)]
    linarith
  have hle : ¬ 2 < sp / 2 := by
    intro hc
    linarith
  have hrem : 1 < sp / 2 := by linarith
  unfold build_ffmpeg_command
  dsimp only
  rw [if_pos h1, if_pos h2, atempo_chain_loop_gt sp h2, atempo_chain_loop_le _ hle]
  simp [hrem, joinComma]

theorem parse_time_ok_fields (s : String) (v : ℚ) (h : parse_time s = .ok v) :
    (∀ p0, splitOnChar ':' s.data = [p0] →
      ∃ a, parseF64 p0 = some a ∧ v = a) ∧
    (∀ p0 p1, splitOnChar ':' s.data = [p0, p1] →
      ∃ m sec, parseF64 p0 = some m ∧ parseF64 p1 = some sec ∧
        v = m * 60 + sec) ∧
    (∀ p0 p1 p2, splitOnChar ':' s.data = [p0, p1, p2] →
      ∃ hh mm sec, parseF64 p0 = some hh ∧ parseF64 p1 = some mm ∧
        parseF64 p2 = some sec ∧ v = hh * 3600 + mm * 60 + sec) := by
  unfold parse_time at h
  dsimp only at h
  refine ⟨?_, ?_, ?_⟩
  · intro p0 hp
    rw [hp] at h
    dsimp only at h
    cases hq : parseF64 p0 with
    | none => rw [hq] at h; cases h
    | some a => rw [hq] at h; exact ⟨a, rfl, (Except.ok.inj h).symm⟩
  · intro p0 p1 hp
    rw [hp] at h
    dsimp only at h
    cases hq0 : parseF64 p0 with
    | none => rw [hq0] at h; cases h
    | some m =>
      rw [hq0] at h
      dsimp only at h
      cases hq1 : parseF64 p1 with
      | none => rw [hq1] at h; cases h
      | some sec =>
        rw [hq1] at h
        exact ⟨m, sec, rfl, rfl, (Except.ok.inj h).symm⟩
  · intro p0 p1 p2 hp
    rw [hp] at h
    dsimp only at h
    cases hq0 : parseF64 p0 with
    | none => rw [hq0] at h; cases h
    | some hh =>
      rw [hq0] at h
      dsimp only at h
      cases hq1 : parseF64 p1 with
      | none => rw [hq1] at h; cases h
      | some mm =>
        rw [hq1] at h
        dsimp only at h
        cases hq2 : parseF64 p2 with
        | none => rw [hq2] at h; cases h
        | some sec =>
          rw [hq2] at h
          exact ⟨hh, mm, sec, rfl, rfl, rfl, (Except.ok.inj h).symm⟩

/-- C2: for every input accepted by `parse_time`, one colon-separated field
is read directly as seconds, two fields as minutes*60 + seconds, and three
fields as hours*3600 + minutes*60 + seconds; in particular
`parse_time "30" = 30`, `parse_time "1:30" = 90` and
`parse_time "1:30:45" = 5445`. -/
theorem spec_c2_parse_time_fields :
    (∀ (s : String) (v : ℚ), parse_time s = .ok v →
      (∀ p0, splitOnChar ':' s.data = [p0] →
        ∃ a, parseF64 p0 = some a ∧ v = a) ∧
      (∀ p0 p1, splitOnChar ':' s.data = [p0, p1] →
        ∃ m sec, parseF64 p0 = some m ∧ parseF64 p1 = some sec ∧
          v = m * 60 + sec) ∧
      (∀ p0 p1 p2, splitOnChar ':' s.data = [p0, p1, p2] →
        ∃ hh mm sec, parseF64 p0 = some hh ∧ parseF64 p1 = some mm ∧
          parseF64 p2 = some sec ∧ v = hh * 3600 + mm * 60 + sec)) ∧
    parse_time "30" = .ok 30 ∧ parse_time "1:30" = .ok 90 ∧
    parse_time "1:30:45" = .ok 5445 :=
  ⟨parse_time_ok_fields, by decide, by decide, by decide⟩

/-- C2 witness: the one-field semantics applied at the concrete accepted
input "30". -/
theorem spec_c2_parse_time_fields_witness :
    ∃ a, parseF64 (String.data "30") = some a ∧ (30 : ℚ) = a :=
  (spec_c2_parse_time_fields.1 "30" 30 (by decide)).1 (String.data "30") (by decide)

/-- C6 counterexample: the empty string splits into one empty field, so
`parse_time ""` fails with the component error for the seconds field, not
with the format error the claim asserts. -/
theorem spec_c6_cex :
    parse_time "" = .error (.invalidComponent .seconds) ∧
      ParseError.invalidComponent Component.seconds ≠ ParseError.invalidFormat :=
  ⟨by decide, by decide⟩

/-- C6 (amended): `parse_time` fails with `InvalidFormat` exactly when the
input has more than 3 colon-separated fields (splitting never yields 0
fields, so `parse_time ""` sees one empty field and fails with
`InvalidComponent` for the seconds position); it fails with an
`InvalidComponent` error, naming the positional component, exactly when the
field count is at most 3 and some field is not numeric; in particular
`parse_time "1:2:3:4"` fails with `InvalidFormat` and `parse_time "a:30"`
fails with `InvalidComponent` for the minutes component. -/
theorem spec_c6_error_taxonomy :
    (∀ s : String, parse_time s = .error .invalidFormat ↔
      3 < (splitOnChar ':' s.data).length) ∧
    (∀ s : String, (∃ c, parse_time s = .error (.invalidComponent c)) ↔
      ((splitOnChar ':' s.data).length ≤ 3 ∧
        ∃ p ∈ splitOnChar ':' s.data, parseF64 p = none)) ∧
    parse_time "" = .error (.invalidComponent .seconds) ∧
    parse_time "1:2:3:4" = .error .invalidFormat ∧
    parse_time "a:30" = .error (.invalidComponent .minutes) := by
  refine ⟨?_, ?_, by decide, by decide, by decide⟩
  · intro s
    unfold parse_time
    dsimp only
    rcases hps : splitOnChar ':' s.data with _ | ⟨p0, _ | ⟨p1, _ | ⟨p2, _ | ⟨p3, rest⟩⟩⟩⟩
    · exact absurd hps (splitOnChar_ne_nil _ _)
    · dsimp only
      cases hq : parseF64 p0 <;> simp
    · dsimp only
      cases hq0 : parseF64 p0 <;> [skip; cases hq1 : parseF64 p1] <;> simp
    · dsimp only
      cases hq0 : parseF64 p0 <;>
        [skip; cases hq1 : parseF64 p1] <;>
        [skip; skip; cases hq2 : parseF64 p2] <;> simp
    · dsimp only
      simp [List.length_cons]
  · intro s
    unfold parse_time
    dsimp only
    rcases hps : splitOnChar ':' s.data with _ | ⟨p0, _ | ⟨p1, _ | ⟨p2, _ | ⟨p3, rest⟩⟩⟩⟩
    · exact absurd hps (splitOnChar_ne_nil _ _)
    · dsimp only
      cases hq : parseF64 p0 <;> simp [hq]
    · dsimp only
      cases hq0 : parseF64 p0 with
      | none => simp [hq0]
      | some m =>
        dsimp only
        cases hq1 : parseF64 p1 <;> simp [hq0, hq1]
    · dsimp only
      cases hq0 : parseF64 p0 with
      | none => simp [hq0]
      | some hh =>
        dsimp only
        cases hq1 : parseF64 p1 with
        | none => simp [hq0, hq1]
        | some mm =>
          dsimp only
          cases hq2 : parseF64 p2 <;> simp [hq0, hq1, hq2]
    · dsimp only
      constructor
      · rintro ⟨c, hc⟩
        cases hc
      · rintro ⟨hlen, -⟩
        simp [List.length_cons] at hlen

/-- C8 counterexample: `parse_time "-5"` succeeds with the negative value
-5, so a successfully parsed TimeSpec is not always nonnegative. -/
theorem spec_c8_cex : parse_time "-5" = .ok (-5) ∧ ¬ (0 : ℚ) ≤ -5 :=
  ⟨by decide, by decide⟩

/-- C8 (amended): a TimeSpec returned by `parse_time` is nonnegative
whenever every colon-separated field parses to a nonnegative number; a
negative field (accepted by the numeric grammar, `"-5"` for instance)
propagates to a negative result. -/
theorem spec_c8_nonneg (s : String) (v : ℚ) (h : parse_time s = .ok v)
    (hfields : ∀ p ∈ splitOnChar ':' s.data, 0 ≤ (parseF64 p).getD 0) :
    0 ≤ v := by
  have hf := parse_time_ok_fields s v h
  rcases hps : splitOnChar ':' s.data with _ | ⟨p0, _ | ⟨p1, _ | ⟨p2, _ | ⟨p3, rest⟩⟩⟩⟩
  · exact absurd hps (splitOnChar_ne_nil _ _)
  · obtain ⟨a, ha, hv⟩ := hf.1 p0 hps
    have h0 := hfields p0 (by rw [hps]; exact List.mem_singleton_self _)
    rw [ha] at h0
    simpa [hv] using h0
  · obtain ⟨m, sec, hm, hsec, hv⟩ := hf.2.1 p0 p1 hps
    have h0 := hfields p0 (by rw [hps]; simp)
    have h1 := hfields p1 (by rw [hps]; simp)
    rw [hm] at h0
    rw [hsec] at h1
    simp only [Option.getD_some] at h0 h1
    have : (0 : ℚ) ≤ m * 60 := mul_nonneg h0 (by norm_num)
    rw [hv]
    linarith
  · obtain ⟨hh, mm, sec, hhh, hmm, hsec, hv⟩ := hf.2.2 p0 p1 p2 hps
    have h0 := hfields p0 (by rw [hps]; simp)
    have h1 := hfields p1 (by rw [hps]; simp)
    have h2 := hfields p2 (by rw [hps]; simp)
    rw [hhh] at h0
    rw [hmm] at h1
    rw [hsec] at h2
    simp only [Option.getD_some] at h0 h1 h2
    have ha : (0 : ℚ) ≤ hh * 3600 := mul_nonneg h0 (by norm_num)
    have hb : (0 : ℚ) ≤ mm * 60 := mul_nonneg h1 (by norm_num)
    rw [hv]
    linarith
  · unfold parse_time at h
    rw [hps] at h
    cases h

/-- C8 witness: the amended nonnegativity fact applied at the accepted
input "1:30", whose two fields are nonnegative. -/
theorem spec_c8_nonneg_witness : (0 : ℚ) ≤ 90 :=
  spec_c8_nonneg "1:30" 90 (by decide) (by decide)

theorem roundHalfEven_abs (x : ℚ) : |(roundHalfEven x : ℚ) - x| ≤ 1 / 2 := by
  unfold roundHalfEven
  dsimp only
  have hfl : (⌊x⌋ : ℚ) ≤ x := Int.floor_le x
  have hfu : x < ⌊x⌋ + 1 := Int.lt_floor_add_one x
  split
  · rename_i h
    rw [abs_le]
    constructor <;> linarith
  · rename_i h1
    split
    · rename_i h2
      rw [abs_le]
      push_cast
      constructor <;> linarith
    · rename_i h2
      have he : x - (⌊x⌋ : ℚ) = 1 / 2 := le_antisymm (not_lt.mp h2) (not_lt.mp h1)
      split
      · rw [abs_le]
        constructor <;> linarith
      · rw [abs_le]
        push_cast
        constructor <;> linarith

theorem fmt2val_close (y : ℚ) : |fmt2val y - y| ≤ 1 / 200 := by
  unfold fmt2val
  have h := roundHalfEven_abs (y * 100)
  rw [abs_le] at h ⊢
  constructor <;> linarith [h.1, h.2]

/-- C1: for every speed in (2, 4], the audio filter is the comma-joined
chain obtained by one pass of the halving loop — a fixed "atempo=2.0" stage
and a closing stage carrying the remainder speed/2 (which exceeds 1, so it
is appended), formatted to two decimals; every stage factor is at most 2
and the product of the stage factors (the fixed 2 and the rounded
remainder) equals the requested speed up to the 2-decimal rounding. -/
theorem spec_c1_atempo_chain (url : String) (s d : ℚ) (o : String) (speed : ℚ)
    (h2 : 2 < speed) (h4 : speed ≤ 4) :
    build_ffmpeg_command url s d o speed =
      ["-ss", f64_to_string s, "-i", url, "-t", f64_to_string d,
       "-filter:v", "setpts=" ++ fmt2 (1 / speed) ++ "*PTS",
       "-filter:a", joinComma ["atempo=2.0", "atempo=" ++ fmt2 (speed / 2)]] ++
        fixed_encoding_args ++ [o] ∧
    atempo_chain_loop speed = (["atempo=2.0"], speed / 2) ∧
    1 < speed / 2 ∧ speed / 2 ≤ 2 ∧
    |2 * fmt2val (speed / 2) - speed| ≤ 1 / 100 := by
  refine ⟨?_, ?_, by linarith, by linarith, ?_⟩
  · rw [build_hi url s d o speed h2 h4]
    simp
  · rw [atempo_chain_loop_gt speed h2,
      atempo_chain_loop_le (speed / 2) (by intro hc; linarith)]
  · have h := fmt2val_close (speed / 2)
    rw [abs_le] at h ⊢
    constructor <;> linarith [h.1, h.2]

/-- C1 witness: the chain decomposition at the concrete speed 3. -/
theorem spec_c1_atempo_chain_witness :
    build_ffmpeg_command "u" 0 1 "o" 3 =
      ["-ss", f64_to_string 0, "-i", "u", "-t", f64_to_string 1,
       "-filter:v", "setpts=" ++ fmt2 (1 / 3) ++ "*PTS",
       "-filter:a", joinComma ["atempo=2.0", "atempo=" ++ fmt2 ((3 : ℚ) / 2)]] ++
        fixed_encoding_args ++ ["o"] ∧
    atempo_chain_loop 3 = (["atempo=2.0"], 3 / 2) ∧
    (1 : ℚ) < 3 / 2 ∧ (3 : ℚ) / 2 ≤ 2 ∧
    |2 * fmt2val ((3 : ℚ) / 2) - 3| ≤ 1 / 100 :=
  spec_c1_atempo_chain "u" 0 1 "o" 3 (by norm_num) (by norm_num)

/-- C5 counterexample: at speed 4 the loop leaves remainder 2, which is
formatted with two decimals, so the emitted chain value is
"atempo=2.0,atempo=2.00" — the stages are ["2.0", "2.00"], not the claimed
["2.0", "2.0"]. -/
theorem spec_c5_cex :
    build_ffmpeg_command "u" 0 1 "o" 4 =
      ["-ss", f64_to_string 0, "-i", "u", "-t", f64_to_string 1,
       "-filter:v", "setpts=0.25*PTS", "-filter:a", "atempo=2.0,atempo=2.00"] ++
        fixed_encoding_args ++ ["o"] ∧
      "atempo=2.0,atempo=2.00" ≠ "atempo=2.0,atempo=2.0" := by
  refine ⟨?_, by decide⟩
  rw [build_hi "u" 0 1 "o" 4 (by norm_num) (by norm_num)]
  decide

/-- C5 (amended): for speed 3 the audio tempo chain decomposes to the two
stages ["2.0", "1.50"], whose factors 2 and 3/2 multiply to exactly 3; for
speed 4 it decomposes to exactly ["2.0", "2.00"] (both factors 2, product
4), the closing stage carrying two-decimal formatting. -/
theorem spec_c5_concrete_chains (url : String) (s d : ℚ) (o : String) :
    build_ffmpeg_command url s d o 3 =
      ["-ss", f64_to_string s, "-i", url, "-t", f64_to_string d,
       "-filter:v", "setpts=0.33*PTS",
       "-filter:a", joinComma ["atempo=2.0", "atempo=1.50"]] ++
        fixed_encoding_args ++ [o] ∧
    (2 : ℚ) * (3 / 2) = 3 ∧
    build_ffmpeg_command url s d o 4 =
      ["-ss", f64_to_string s, "-i", url, "-t", f64_to_string d,
       "-filter:v", "setpts=0.25*PTS",
       "-filter:a", joinComma ["atempo=2.0", "atempo=2.00"]] ++
        fixed_encoding_args ++ [o] ∧
    (2 : ℚ) * 2 = 4 := by
  have e3v : "setpts=" ++ fmt2 (1 / (3 : ℚ)) ++ "*PTS" = "setpts=0.33*PTS" := by decide
  have e3a : "atempo=" ++ fmt2 ((3 : ℚ) / 2) = "atempo=1.50" := by decide
  have e4v : "setpts=" ++ fmt2 (1 / (4 : ℚ)) ++ "*PTS" = "setpts=0.25*PTS" := by decide
  have e4a : "atempo=" ++ fmt2 ((4 : ℚ) / 2) = "atempo=2.00" := by decide
  refine ⟨?_, by norm_num, ?_, by norm_num⟩
  · rw [build_hi url s d o 3 (by norm_num) (by norm_num), e3v, e3a]
    simp
  · rw [build_hi url s d o 4 (by norm_num) (by norm_num), e4v, e4a]
    simp

/-- C4: within the validated speed range [1/2, 4], a speed within ±0.01 of
1 makes the builder emit no speed directives at all; any other speed makes
it emit the video filter with factor 1/speed formatted to two decimals,
and, when the speed is also at most 2, a single audio tempo directive whose
factor is the speed clamped to at most 2 and formatted to two decimals. -/
theorem spec_c4_speed_directives (url : String) (s d : ℚ) (o : String) (speed : ℚ)
    (_hlo : 1 / 2 ≤ speed) (hhi : speed ≤ 4) :
    (|speed - 1| ≤ 1 / 100 →
      build_ffmpeg_command url s d o speed =
        ["-ss", f64_to_string s, "-i", url, "-t", f64_to_string d] ++
          fixed_encoding_args ++ [o]) ∧
    (1 / 100 < |speed - 1| →
      ∃ pre suf, build_ffmpeg_command url s d o speed =
        pre ++ ["-filter:v", "setpts=" ++ fmt2 (1 / speed) ++ "*PTS"] ++ suf) ∧
    (1 / 100 < |speed - 1| → speed ≤ 2 →
      build_ffmpeg_command url s d o speed =
        ["-ss", f64_to_string s, "-i", url, "-t", f64_to_string d] ++
          ["-filter:v", "setpts=" ++ fmt2 (1 / speed) ++ "*PTS",
           "-filter:a", "atempo=" ++ fmt2 (min speed 2)] ++
          fixed_encoding_args ++ [o]) := by
  refine ⟨?_, ?_, ?_⟩
  · intro h
    exact build_near1 url s d o speed (not_lt.mpr h)
  · intro h
    by_cases h2 : 2 < speed
    · refine ⟨["-ss", f64_to_string s, "-i", url, "-t", f64_to_string d],
        ["-filter:a", joinComma ["atempo=2.0", "atempo=" ++ fmt2 (speed / 2)]] ++
          fixed_encoding_args ++ [o], ?_⟩
      rw [build_hi url s d o speed h2 hhi]
      simp
    · refine ⟨["-ss", f64_to_string s, "-i", url, "-t", f64_to_string d],
        ["-filter:a", "atempo=" ++ fmt2 (min speed 2)] ++
          fixed_encoding_args ++ [o], ?_⟩
      rw [build_mid url s d o speed h h2]
      simp
  · intro h hle2
    exact build_mid url s d o speed h (not_lt.mpr hle2)

/-- C4 witness: the speed directives at the concrete speed 1/2. -/
theorem spec_c4_speed_directives_witness :
    (|(1 : ℚ) / 2 - 1| ≤ 1 / 100 →
      build_ffmpeg_command "u" 0 1 "o" (1 / 2) =
        ["-ss", f64_to_string 0, "-i", "u", "-t", f64_to_string 1] ++
          fixed_encoding_args ++ ["o"]) ∧
    (1 / 100 < |(1 : ℚ) / 2 - 1| →
      ∃ pre suf, build_ffmpeg_command "u" 0 1 "o" (1 / 2) =
        pre ++ ["-filter:v", "setpts=" ++ fmt2 (1 / (1 / 2)) ++ "*PTS"] ++ suf) ∧
    (1 / 100 < |(1 : ℚ) / 2 - 1| → (1 : ℚ) / 2 ≤ 2 →
      build_ffmpeg_command "u" 0 1 "o" (1 / 2) =
        ["-ss", f64_to_string 0, "-i", "u", "-t", f64_to_string 1] ++
          ["-filter:v", "setpts=" ++ fmt2 (1 / (1 / 2)) ++ "*PTS",
           "-filter:a", "atempo=" ++ fmt2 (min ((1 : ℚ) / 2) 2)] ++
          fixed_encoding_args ++ ["o"]) :=
  spec_c4_speed_directives "u" 0 1 "o" (1 / 2) (by norm_num) (by norm_num)

/-- C7: whenever the parsed end time is not strictly after the parsed start
time, the download skeleton stops with the NonPositiveDuration error — for
every url, speed and injected collaborator value, so before the filter
chain builder could contribute anything; and the builder itself is total:
on every input whatsoever it returns a directive list (ending in the output
path), with no failure path of its own. -/
theorem spec_c7_validation_gate :
    (∀ (url st et : String) (out : Option String) (speed : ℚ) (title durl : String)
        (s e : ℚ), parse_time st = .ok s → parse_time et = .ok e → e ≤ s →
      download_clip_plan url st et out speed title durl = .error .nonPositiveDuration) ∧
    (∀ (url : String) (s d : ℚ) (o : String) (speed : ℚ),
      ∃ args, build_ffmpeg_command url s d o speed = args ∧
        args.getLast? = some o) := by
  constructor
  · intro url st et out speed title durl s e hs he hle
    unfold download_clip_plan
    rw [hs]
    dsimp only
    rw [he]
    dsimp only
    rw [if_pos hle]
  · intro url s d o speed
    refine ⟨build_ffmpeg_command url s d o speed, rfl, ?_⟩
    unfold build_ffmpeg_command
    dsimp only
    exact List.getLast?_concat _

theorem natToStrAux_digits (fuel n : Nat) :
    ∀ c ∈ natToStrAux fuel n, c.isDigit = true := by
  induction fuel generalizing n with
  | zero => intro c hc; simp [natToStrAux] at hc
  | succ f ih =>
    intro c hc
    unfold natToStrAux at hc
    split at hc
    · rename_i h
      simp only [List.mem_singleton] at hc
      subst hc
      unfold natDigitChar
      interval_cases n <;> decide
    · rw [List.mem_append] at hc
      rcases hc with hc | hc
      · exact ih (n / 10) c hc
      · simp only [List.mem_singleton] at hc
        subst hc
        unfold natDigitChar
        have hm : n % 10 < 10 := Nat.mod_lt _ (by norm_num)
        set m := n % 10 with hmdef
        clear_value m
        interval_cases m <;> decide

theorem natToStr_digits (n : Nat) : ∀ c ∈ (natToStr n).data, c.isDigit = true := by
  intro c hc
  exact natToStrAux_digits (n + 1) n c hc

theorem f64_to_string_chars (q : ℚ) :
    ∀ c ∈ (f64_to_string q).data, c.isDigit = true ∨ c = '-' ∨ c = '.' ∨ c = '/' := by
  intro c hc
  unfold f64_to_string at hc
  dsimp only at hc
  have hsign : c ∈ (if q < 0 then "-" else "").data →
      c.isDigit = true ∨ c = '-' ∨ c = '.' ∨ c = '/' := by
    intro h2
    split at h2
    · have : c = '-' := by simpa using h2
      exact Or.inr (Or.inl this)
    · simp at h2
  split at hc
  · split at hc
    · rw [String.data_append, List.mem_append] at hc
      rcases hc with hc | hc
      · exact hsign hc
      · exact Or.inl (natToStr_digits _ c hc)
    · rw [String.data_append, List.mem_append] at hc
      rcases hc with hc | hc
      · rw [String.data_append, List.mem_append] at hc
        rcases hc with hc | hc
        · rw [String.data_append, List.mem_append] at hc
          rcases hc with hc | hc
          · rw [String.data_append, List.mem_append] at hc
            rcases hc with hc | hc
            · exact hsign hc
            · exact Or.inl (natToStr_digits _ c hc)
          · have : c = '.' := by simpa using hc
            exact Or.inr (Or.inr (Or.inl this))
        · have : c = '0' := List.eq_of_mem_replicate (by simpa using hc)
          subst this
          exact Or.inl (by decide)
      · exact Or.inl (natToStr_digits _ c hc)
  · rw [String.data_append, List.mem_append] at hc
    rcases hc with hc | hc
    · rw [String.data_append, List.mem_append] at hc
      rcases hc with hc | hc
      · rw [String.data_append, List.mem_append] at hc
        rcases hc with hc | hc
        · exact hsign hc
        · exact Or.inl (natToStr_digits _ c hc)
      · have : c = '/' := by simpa using hc
        exact Or.inr (Or.inr (Or.inr this))
    · exact Or.inl (natToStr_digits _ c hc)

theorem f64_to_string_ne_t (q : ℚ) : f64_to_string q ≠ "-t" := by
  intro he
  have h2 : 't' ∈ (f64_to_string q).data := by rw [he]; decide
  rcases f64_to_string_chars q 't' h2 with h | h | h | h <;> exact absurd h (by decide)

theorem joinComma_cons_length (a : String) (l : List String) :
    a.length ≤ (joinComma (a :: l)).length := by
  cases l with
  | nil => simp [joinComma]
  | cons b t =>
    simp only [joinComma, String.length_append]
    omega

theorem ne_of_length_ne {s t : String} (h : s.length ≠ t.length) : s ≠ t :=
  fun he => h (by rw [he])

theorem build_gt_general (url : String) (s d : ℚ) (o : String) (sp : ℚ)
    (h2 : 2 < sp) :
    ∃ c, build_ffmpeg_command url s d o sp =
        ["-ss", f64_to_string s, "-i", url, "-t", f64_to_string d] ++
          ["-filter:v", "setpts=" ++ fmt2 (1 / sp) ++ "*PTS",
           "-filter:a", joinComma ("atempo=2.0" :: c)] ++
          fixed_encoding_args ++ [o] := by
  have h1 : 1 / 100 < |sp - 1| := by
    rw [abs_of_pos (by linarith)]
    linarith
  unfold build_ffmpeg_command
  dsimp only
  rw [if_pos h1, if_pos h2, atempo_chain_loop_gt sp h2]
  dsimp only
  by_cases ht : 1 < (atempo_chain_loop (sp / 2)).2
  · refine ⟨(atempo_chain_loop (sp / 2)).1 ++
      ["atempo=" ++ fmt2 (atempo_chain_loop (sp / 2)).2], ?_⟩
    rw [if_pos ht]
    simp
  · refine ⟨(atempo_chain_loop (sp / 2)).1, ?_⟩
    rw [if_neg ht]

theorem count_t_base (fs fd url : String) (h1 : fs ≠ "-t") (h2 : url ≠ "-t")
    (h3 : fd ≠ "-t") :
    (["-ss", fs, "-i", url, "-t", fd] : List String).count "-t" = 1 := by
  have e1 : ¬ ("-t" : String) = "-ss" := by decide
  have e2 : ¬ ("-t" : String) = "-i" := by decide
  simp [List.count_cons, e1, e2, Ne.symm h1, Ne.symm h2, Ne.symm h3]

/-- C3: for every source url, start, end > start, speed and output path,
the built token list begins with the seek-start directive carrying start,
then the opaque input slot, then the duration directive carrying
end - start, in that order; the duration token "-t" is emitted exactly once
(it appears neither in the speed-filter block nor in the fixed encoding
tail, so whenever the two opaque slots — the url and the output path — are
not themselves the literal "-t", the whole list holds exactly one "-t");
and the list ends with the fixed encoding directives in constant order
followed last by the output path. -/
theorem spec_c3_directive_order (url : String) (start end_ : ℚ) (o : String)
    (speed : ℚ) (_h : start < end_) :
    ∃ mid, build_ffmpeg_command url start (end_ - start) o speed =
        ["-ss", f64_to_string start, "-i", url, "-t", f64_to_string (end_ - start)] ++
          mid ++ fixed_encoding_args ++ [o] ∧
      "-t" ∉ mid ∧ "-t" ∉ fixed_encoding_args ∧
      (url ≠ "-t" → o ≠ "-t" →
        (build_ffmpeg_command url start (end_ - start) o speed).count "-t" = 1) := by
  have hfix : ("-t" : String) ∉ fixed_encoding_args := by decide
  have hvf : ∀ x : String, ("-t" : String) ≠ "setpts=" ++ x ++ "*PTS" := by
    intro x
    apply ne_of_length_ne
    rw [String.length_append, String.length_append,
      show ("-t" : String).length = 2 from rfl,
      show ("setpts=" : String).length = 7 from rfl,
      show ("*PTS" : String).length = 4 from rfl]
    omega
  have haf1 : ∀ x : String, ("-t" : String) ≠ "atempo=" ++ x := by
    intro x
    apply ne_of_length_ne
    rw [String.length_append,
      show ("-t" : String).length = 2 from rfl,
      show ("atempo=" : String).length = 7 from rfl]
    omega
  have hjoin : ∀ c : List String, ("-t" : String) ≠ joinComma ("atempo=2.0" :: c) := by
    intro c he
    have hlen := joinComma_cons_length "atempo=2.0" c
    rw [← he] at hlen
    rw [show ("atempo=2.0" : String).length = 10 from rfl,
      show ("-t" : String).length = 2 from rfl] at hlen
    omega
  have hcount : ∀ mid : List String,
      build_ffmpeg_command url start (end_ - start) o speed =
        ["-ss", f64_to_string start, "-i", url, "-t", f64_to_string (end_ - start)] ++
          mid ++ fixed_encoding_args ++ [o] →
      ("-t" : String) ∉ mid → url ≠ "-t" → o ≠ "-t" →
      (build_ffmpeg_command url start (end_ - start) o speed).count "-t" = 1 := by
    intro mid heq hmid hu ho
    rw [heq]
    rw [List.count_append, List.count_append, List.count_append]
    rw [count_t_base _ _ _ (f64_to_string_ne_t _) hu (f64_to_string_ne_t _)]
    rw [List.count_eq_zero.mpr hmid, List.count_eq_zero.mpr hfix,
      List.count_eq_zero.mpr (by simp [Ne.symm ho])]
  by_cases hb : 1 / 100 < |speed - 1|
  · by_cases h2 : 2 < speed
    · obtain ⟨c, hc⟩ := build_gt_general url start (end_ - start) o speed h2
      have hmid : ("-t" : String) ∉
          ["-filter:v", "setpts=" ++ fmt2 (1 / speed) ++ "*PTS",
           "-filter:a", joinComma ("atempo=2.0" :: c)] := by
        intro hmem
        simp only [List.mem_cons, List.not_mem_nil, or_false] at hmem
        rcases hmem with h1 | h1 | h1 | h1
        · exact absurd h1 (by decide)
        · exact hvf _ h1
        · exact absurd h1 (by decide)
        · exact hjoin c h1
      exact ⟨_, hc, hmid, hfix, hcount _ hc hmid⟩
    · have hc := build_mid url start (end_ - start) o speed hb h2
      have hmid : ("-t" : String) ∉
          ["-filter:v", "setpts=" ++ fmt2 (1 / speed) ++ "*PTS",
           "-filter:a", "atempo=" ++ fmt2 (min speed 2)] := by
        intro hmem
        simp only [List.mem_cons, List.not_mem_nil, or_false] at hmem
        rcases hmem with h1 | h1 | h1 | h1
        · exact absurd h1 (by decide)
        · exact hvf _ h1
        · exact absurd h1 (by decide)
        · exact haf1 _ h1
      exact ⟨_, hc, hmid, hfix, hcount _ hc hmid⟩
  · have hc := build_near1 url start (end_ - start) o speed hb
    have hc2 : build_ffmpeg_command url start (end_ - start) o speed =
        ["-ss", f64_to_string start, "-i", url, "-t", f64_to_string (end_ - start)] ++
          [] ++ fixed_encoding_args ++ [o] := by
      simpa using hc
    exact ⟨[], hc2, by simp, hfix, hcount [] hc2 (by simp)⟩

/-- C3 witness: the directive order at concrete inputs. -/
theorem spec_c3_directive_order_witness :
    ∃ mid, build_ffmpeg_command "u" 0 (5 - 0) "o" 1 =
        ["-ss", f64_to_string 0, "-i", "u", "-t", f64_to_string (5 - 0)] ++
          mid ++ fixed_encoding_args ++ ["o"] ∧
      "-t" ∉ mid ∧ "-t" ∉ fixed_encoding_args ∧
      ("u" ≠ "-t" → "o" ≠ "-t" →
        (build_ffmpeg_command "u" 0 (5 - 0) "o" 1).count "-t" = 1) :=
  spec_c3_directive_order "u" 0 5 "o" 1 (by norm_num)

theorem build_getLast (url : String) (s d : ℚ) (o : String) (sp : ℚ) :
    (build_ffmpeg_command url s d o sp).getLast? = some o := by
  unfold build_ffmpeg_command
  dsimp only
  exact List.getLast?_concat _

/-- C9 counterexample: at speed 1.005 — which is different from 1.0 but
inside the ±0.01 tolerance band — the derived filename uses the plain
pattern without the speed suffix, against the claim's "when speed ≠ 1.0"
condition. -/
theorem spec_c9_cex :
    download_clip_plan "https://youtu.be/dQw4w9WgXcQ" "0" "5" none (201 / 200) "t" "u" =
      .ok ["-ss", "0", "-i", "u", "-t", "5", "-c:v", "libx264", "-c:a", "aac",
           "-pix_fmt", "yuv420p", "-movflags", "faststart", "-preset", "fast",
           "-crf", "23", "-y", "t_clip_0_5.mp4"] ∧
    (201 : ℚ) / 200 ≠ 1 ∧
    "t_clip_0_5.mp4" ≠ "t_clip_0-5_" ++ f64_to_string (201 / 200) ++ "x.mp4" :=
  ⟨by decide, by norm_num, by decide⟩

/-- C9 (amended): when the user supplies no output name and the download
skeleton succeeds, the produced command ends with the derived filename,
which is "<title>_clip_<start>-<end>_<speed>x.mp4" when the speed differs
from 1 by more than the 0.01 tolerance, and "<title>_clip_<start>_<end>.mp4"
otherwise (the source tests the tolerance band, not "speed ≠ 1.0"), with
every ':' in the start and end time strings replaced by '-'. -/
theorem spec_c9_default_filename (url st et : String) (speed : ℚ)
    (title durl : String) (s e : ℚ) (hs : parse_time st = .ok s)
    (he : parse_time et = .ok e) (hlt : s < e) (vid : String)
    (hv : extract_video_id url = some vid) :
    ∃ args, download_clip_plan url st et none speed title durl = .ok args ∧
      args.getLast? = some (default_output_file title st et speed) ∧
      default_output_file title st et speed =
        (if 1 / 100 < |speed - 1| then
          title ++ "_clip_" ++ colonToDash st ++ "-" ++ colonToDash et ++
            "_" ++ f64_to_string speed ++ "x.mp4"
        else
          title ++ "_clip_" ++ colonToDash st ++ "_" ++ colonToDash et ++ ".mp4") := by
  unfold download_clip_plan
  rw [hs]
  dsimp only
  rw [he]
  dsimp only
  rw [if_neg (not_le.mpr hlt), hv]
  dsimp only
  exact ⟨_, rfl, build_getLast _ _ _ _ _, rfl⟩

/-- C9 witness: the derived filename fact at concrete inputs (speed 2). -/
theorem spec_c9_default_filename_witness :
    ∃ args, download_clip_plan "https://youtu.be/dQw4w9WgXcQ" "0" "1:30" none 2 "t" "u" =
        .ok args ∧
      args.getLast? = some (default_output_file "t" "0" "1:30" 2) ∧
      default_output_file "t" "0" "1:30" 2 =
        (if 1 / 100 < |(2 : ℚ) - 1| then
          "t" ++ "_clip_" ++ colonToDash "0" ++ "-" ++ colonToDash "1:30" ++
            "_" ++ f64_to_string 2 ++ "x.mp4"
        else
          "t" ++ "_clip_" ++ colonToDash "0" ++ "_" ++ colonToDash "1:30" ++ ".mp4") :=
  spec_c9_default_filename "https://youtu.be/dQw4w9WgXcQ" "0" "1:30" 2 "t" "u" 0 90
    (by decide) (by decide) (by norm_num) "dQw4w9WgXcQ" (by decide)

theorem matchAlt_some_iff (pat l r : List Char) :
    matchAlt pat l = some r ↔
      ∃ b, l = pat ++ b ∧ (b.take 11).length = 11 ∧ (b.take 11).all idChar = true ∧
        r = b.take 11 := by
  unfold matchAlt
  split
  · rename_i hcond
    obtain ⟨h1, h2, h3⟩ := hcond
    constructor
    · intro hr
      injection hr with hr
      refine ⟨l.drop pat.length, ?_, ?_, ?_, hr.symm⟩
      · conv_lhs => rw [← List.take_append_drop pat.length l]
        rw [h1]
      · exact h2
      · exact h3
    · rintro ⟨b, hb, hlen, hall, hr⟩
      subst hb
      rw [List.drop_left, hr]
  · rename_i hcond
    constructor
    · intro hr
      cases hr
    · rintro ⟨b, hb, hlen, hall, hr⟩
      subst hb
      exact absurd ⟨List.take_left _ _, by rw [List.drop_left]; exact hlen,
        by rw [List.drop_left]; exact hall⟩ hcond

theorem take_prefix_getElem {l p : List Char} (h : l.take p.length = p) {i : Nat}
    (hi : i < p.length) : l[i]? = p[i]? := by
  rw [← h, List.getElem?_take_of_lt hi]

theorem not_take_patWatch_of_patShort (b : List Char) :
    ¬ ((patShort ++ b).take patWatch.length = patWatch) := by
  intro h
  have h1 := take_prefix_getElem h (show 5 < patWatch.length by decide)
  rw [List.getElem?_append_left (show 5 < patShort.length by decide)] at h1
  exact absurd h1 (by decide)

theorem not_take_patWatch_of_patEmbed (b : List Char) :
    ¬ ((patEmbed ++ b).take patWatch.length = patWatch) := by
  intro h
  have h1 := take_prefix_getElem h (show 12 < patWatch.length by decide)
  rw [List.getElem?_append_left (show 12 < patEmbed.length by decide)] at h1
  exact absurd h1 (by decide)

theorem not_take_patShort_of_patEmbed (b : List Char) :
    ¬ ((patEmbed ++ b).take patShort.length = patShort) := by
  intro h
  have h1 := take_prefix_getElem h (show 5 < patShort.length by decide)
  rw [List.getElem?_append_left (show 5 < patEmbed.length by decide)] at h1
  exact absurd h1 (by decide)

theorem matchAlt_none_of_take {pat l : List Char}
    (h : ¬ (l.take pat.length = pat)) : matchAlt pat l = none := by
  unfold matchAlt
  rw [if_neg]
  intro hcond
  exact h hcond.1

theorem tryMatchAt_some_iff (l r : List Char) :
    tryMatchAt l = some r ↔
      ∃ pat b, pat ∈ ytPatterns ∧ l = pat ++ b ∧ (b.take 11).length = 11 ∧
        (b.take 11).all idChar = true ∧ r = b.take 11 := by
  constructor
  · intro h
    unfold tryMatchAt at h
    cases h1 : matchAlt patWatch l with
    | some r1 =>
      rw [h1] at h
      injection h with h
      subst h
      obtain ⟨b, hb, hlen, hall, hr⟩ := (matchAlt_some_iff _ _ _).mp h1
      exact ⟨patWatch, b, by simp [ytPatterns], hb, hlen, hall, hr⟩
    | none =>
      rw [h1] at h
      cases h2 : matchAlt patShort l with
      | some r2 =>
        rw [h2] at h
        injection h with h
        subst h
        obtain ⟨b, hb, hlen, hall, hr⟩ := (matchAlt_some_iff _ _ _).mp h2
        exact ⟨patShort, b, by simp [ytPatterns], hb, hlen, hall, hr⟩
      | none =>
        rw [h2] at h
        obtain ⟨b, hb, hlen, hall, hr⟩ := (matchAlt_some_iff _ _ _).mp h
        exact ⟨patEmbed, b, by simp [ytPatterns], hb, hlen, hall, hr⟩
  · rintro ⟨pat, b, hmem, hb, hlen, hall, hr⟩
    have hsome : matchAlt pat l = some r :=
      (matchAlt_some_iff _ _ _).mpr ⟨b, hb, hlen, hall, hr⟩
    unfold tryMatchAt
    simp only [ytPatterns, List.mem_cons, List.not_mem_nil, or_false] at hmem
    rcases hmem with hp | hp | hp
    · subst hp
      rw [hsome]
    · subst hp
      rw [matchAlt_none_of_take (by rw [hb]; exact not_take_patWatch_of_patShort b)]
      rw [hsome]
    · subst hp
      rw [matchAlt_none_of_take (by rw [hb]; exact not_take_patWatch_of_patEmbed b)]
      rw [matchAlt_none_of_take (by rw [hb]; exact not_take_patShort_of_patEmbed b)]
      exact hsome

theorem findFirstMatch_none_iff (l : List Char) :
    findFirstMatch l = none ↔ ∀ a b, l = a ++ b → tryMatchAt b = none := by
  induction l with
  | nil =>
    constructor
    · intro _ a b hab
      have hb : b = [] := (List.append_eq_nil.mp hab.symm).2
      subst hb
      decide
    · intro _
      decide
  | cons c t ih =>
    constructor
    · intro h a b hab
      cases h1 : tryMatchAt (c :: t) with
      | some r =>
        unfold findFirstMatch at h
        rw [h1] at h
        cases h
      | none =>
        have ht : findFirstMatch t = none := by
          unfold findFirstMatch at h
          rw [h1] at h
          exact h
        cases a with
        | nil =>
          have hb : b = c :: t := by simpa using hab.symm
          rw [hb]
          exact h1
        | cons c2 a2 =>
          have hta : t = a2 ++ b := by
            have := List.cons.inj hab
            exact this.2
          exact ih.mp ht a2 b hta
    · intro h
      unfold findFirstMatch
      rw [h [] (c :: t) rfl]
      exact ih.mpr fun a b hab => h (c :: a) b (by rw [hab]; rfl)

theorem findFirstMatch_some_iff (l r : List Char) :
    findFirstMatch l = some r ↔
      ∃ a b, l = a ++ b ∧ tryMatchAt b = some r ∧
        ∀ a2 b2, l = a2 ++ b2 → a2.length < a.length → tryMatchAt b2 = none := by
  induction l with
  | nil =>
    constructor
    · intro h
      rw [show findFirstMatch ([] : List Char) = none from by decide] at h
      cases h
    · rintro ⟨a, b, hab, hsome, -⟩
      have hb : b = [] := (List.append_eq_nil.mp hab.symm).2
      subst hb
      rw [show tryMatchAt ([] : List Char) = none from by decide] at hsome
      cases hsome
  | cons c t ih =>
    constructor
    · intro h
      unfold findFirstMatch at h
      cases h1 : tryMatchAt (c :: t) with
      | some r1 =>
        rw [h1] at h
        injection h with h
        subst h
        exact ⟨[], c :: t, rfl, h1, fun a2 b2 _ hlen => absurd hlen (by simp)⟩
      | none =>
        rw [h1] at h
        obtain ⟨a, b, hab, hsome, hmin⟩ := ih.mp h
        refine ⟨c :: a, b, by rw [hab]; rfl, hsome, ?_⟩
        intro a2 b2 hab2 hlen
        cases a2 with
        | nil =>
          have hb2 : b2 = c :: t := by simpa using hab2.symm
          rw [hb2]
          exact h1
        | cons c2 a3 =>
          have ht2 : t = a3 ++ b2 := (List.cons.inj hab2).2
          have hlen2 : a3.length < a.length := by
            simp only [List.length_cons] at hlen
            omega
          exact hmin a3 b2 ht2 hlen2
    · rintro ⟨a, b, hab, hsome, hmin⟩
      unfold findFirstMatch
      cases a with
      | nil =>
        have hb : b = c :: t := by simpa using hab.symm
        subst hb
        rw [hsome]
      | cons c2 a3 =>
        have hc : t = a3 ++ b := (List.cons.inj hab).2
        rw [hmin [] (c :: t) rfl (by simp)]
        refine ih.mpr ⟨a3, b, hc, hsome, ?_⟩
        intro a4 b4 hab4 hlen4
        refine hmin (c :: a4) b4 (by rw [hab4]; rfl) ?_
        simp only [List.length_cons]
        have : (c2 :: a3).length = a3.length + 1 := by simp
        omega

/-- C10: `extract_video_id` succeeds exactly when the URL contains one of
the three pattern literals immediately followed by at least 11 characters
of the id class, the returned id is the 11 characters after the leftmost
such occurrence, and when no such occurrence exists the download skeleton
fails with the video-id extraction error — for every injected collaborator
value, so before any title fetch or media-url resolution could matter. -/
theorem spec_c10_video_id (url : String) :
    ((∃ id, extract_video_id url = some id) ↔
      ∃ a pat b, url.data = a ++ pat ++ b ∧ pat ∈ ytPatterns ∧
        (b.take 11).length = 11 ∧ (b.take 11).all idChar = true) ∧
    (∀ id, extract_video_id url = some id →
      ∃ a pat b, url.data = a ++ pat ++ b ∧ pat ∈ ytPatterns ∧
        (b.take 11).length = 11 ∧ (b.take 11).all idChar = true ∧
        id = String.mk (b.take 11) ∧
        ∀ a2 pat2 b2, url.data = a2 ++ pat2 ++ b2 → pat2 ∈ ytPatterns →
          (b2.take 11).length = 11 → (b2.take 11).all idChar = true →
          a.length ≤ a2.length) ∧
    (extract_video_id url = none →
      ∀ (st et : String) (out : Option String) (speed : ℚ) (title durl : String)
        (s e : ℚ), parse_time st = .ok s → parse_time et = .ok e → s < e →
        download_clip_plan url st et out speed title durl =
          .error .videoIdExtraction) := by
  refine ⟨⟨?_, ?_⟩, ?_, ?_⟩
  · rintro ⟨id, hid⟩
    unfold extract_video_id at hid
    cases hf : findFirstMatch url.data with
    | none => rw [hf] at hid; cases hid
    | some r =>
      obtain ⟨a, b2, hab, hsome, -⟩ := (findFirstMatch_some_iff _ _).mp hf
      obtain ⟨pat, b, hmem, hb, hlen, hall, -⟩ := (tryMatchAt_some_iff _ _).mp hsome
      exact ⟨a, pat, b, by rw [hab, hb, List.append_assoc], hmem, hlen, hall⟩
  · rintro ⟨a, pat, b, hab, hmem, hlen, hall⟩
    have hsome : tryMatchAt (pat ++ b) = some (b.take 11) :=
      (tryMatchAt_some_iff _ _).mpr ⟨pat, b, hmem, rfl, hlen, hall, rfl⟩
    cases hf : findFirstMatch url.data with
    | none =>
      have hn := (findFirstMatch_none_iff _).mp hf a (pat ++ b)
        (by rw [hab, List.append_assoc])
      rw [hn] at hsome
      cases hsome
    | some r =>
      refine ⟨String.mk r, ?_⟩
      unfold extract_video_id
      rw [hf]
      rfl
  · intro id hid
    unfold extract_video_id at hid
    cases hf : findFirstMatch url.data with
    | none => rw [hf] at hid; cases hid
    | some r =>
      rw [hf] at hid
      dsimp only [Option.map] at hid
      injection hid with hid
      obtain ⟨a, b2, hab, hsome, hmin⟩ := (findFirstMatch_some_iff _ _).mp hf
      obtain ⟨pat, b, hmem, hb, hlen, hall, hr⟩ := (tryMatchAt_some_iff _ _).mp hsome
      refine ⟨a, pat, b, by rw [hab, hb, List.append_assoc], hmem, hlen, hall, ?_, ?_⟩
      · rw [← hid, hr]
      · intro a2 pat2 b2 hab2 hmem2 hlen2 hall2
        by_contra hcon
        push_neg at hcon
        have hnone := hmin a2 (pat2 ++ b2)
          (by rw [hab2, List.append_assoc]) hcon
        have hsome2 : tryMatchAt (pat2 ++ b2) = some (b2.take 11) :=
          (tryMatchAt_some_iff _ _).mpr ⟨pat2, b2, hmem2, rfl, hlen2, hall2, rfl⟩
        rw [hnone] at hsome2
        cases hsome2
  · intro hnone st et out speed title durl s e hs he hlt
    unfold download_clip_plan
    rw [hs]
    dsimp only
    rw [he]
    dsimp only
    rw [if_neg (not_le.mpr hlt), hnone]
